import Mathlib

/-! Verification development for the pigo face-detection library.

The Go wrapper (`pigo.go`: `DetectFaces`, `DrawFaces`, `ImgToNRGBA`, the
package-level drawing context `dc`) is embedded from the repository source.
The detection core (`Unpack`, `RunCascade`, `ClusterDetections`,
`RgbToGrayscale`) is not part of the provided sources; those definitions are
modelled from the specification, as marked in their doc comments.

Conventions of the embedding:
  * Go `int` is `Int`; Go integer division truncates toward zero, which is
    `Int.tdiv` (all divisions that matter here act on non-negative values).
  * Go `float32`/`float64` values are embedded as exact rationals `ℚ`.
  * Byte buffers are `List ℕ` holding values `0..255`.
  * External collaborators (the `gg` drawing package, the filesystem, the
    standard library's YCbCr-to-RGB conversion and generic color conversion,
    and the trigonometric evaluation used by the rotated classifier) are
    abstracted as explicit parameters or as recorded effect traces.
-/

/-! Section: Go geometry (`image.Point`, `image.Rectangle`). -/

/-- Integer point, after Go's `image.Point`. -/
@[ext]
structure GoPoint where
  x : Int
  y : Int
deriving DecidableEq

/-- Axis-aligned integer rectangle, after Go's `image.Rectangle`. -/
structure GoRect where
  min : GoPoint
  max : GoPoint
deriving DecidableEq

/-- Width of a rectangle (`Rectangle.Dx`). -/
def GoRect.dx (r : GoRect) : Int := r.max.x - r.min.x

/-- Height of a rectangle (`Rectangle.Dy`). -/
def GoRect.dy (r : GoRect) : Int := r.max.y - r.min.y

/-- Translation of a rectangle by `-p` (`Rectangle.Sub`). -/
def GoRect.sub (r : GoRect) (p : GoPoint) : GoRect :=
  ⟨⟨r.min.x - p.x, r.min.y - p.y⟩, ⟨r.max.x - p.x, r.max.y - p.y⟩⟩

/-- Constructor `image.Rect(x0, y0, x1, y1)`: Go swaps the coordinates when
they are given in the wrong order, so that `min ≤ max` holds componentwise. -/
def goRect (x0 y0 x1 y1 : Int) : GoRect :=
  let p := if x0 > x1 then (x1, x0) else (x0, x1)
  let q := if y0 > y1 then (y1, y0) else (y0, y1)
  ⟨⟨p.1, q.1⟩, ⟨p.2, q.2⟩⟩

/-! Section: Go image model (`image.NRGBA`, `image.YCbCr`, `image.Image`). -/

/-- Go's `*image.NRGBA`: a flat byte buffer with 4 bytes per pixel, a stride
in bytes per row, and a bounds rectangle. -/
structure NRGBA where
  pix : List ℕ
  stride : Int
  rect : GoRect
deriving DecidableEq

/-- Offset of the first byte of pixel `(x, y)` (`NRGBA.PixOffset`). -/
def NRGBA.pixOffset (a : NRGBA) (x y : Int) : Int :=
  (y - a.rect.min.y) * a.stride + (x - a.rect.min.x) * 4

/-- Go's `image.NewNRGBA(r)`: zero-filled buffer, stride `4 * r.Dx()`. -/
def newNRGBA (r : GoRect) : NRGBA :=
  ⟨List.replicate (4 * r.dx * r.dy).toNat 0, 4 * r.dx, r⟩

/-- Go's `*image.YCbCr`.  The luma and chroma planes are byte buffers; the
offset functions `YOffset`/`COffset` depend on the subsample ratio and live
in Go's standard library, so they are carried as abstract functions. -/
structure YCbCrImg where
  rect : GoRect
  yPlane : List ℕ
  cbPlane : List ℕ
  crPlane : List ℕ
  yOff : Int → Int → Int
  cOff : Int → Int → Int

/-- The Go interface `image.Image`, restricted to the three variants the
source's `ImgToNRGBA` dispatches on.  For the `default` branch the
composition `color.NRGBAModel.Convert(img.At(x, y))` of the standard library
is abstracted as the image's pixel function returning `(R, G, B, A)`. -/
inductive GoImage where
  | nrgba (a : NRGBA)
  | ycbcr (b : YCbCrImg)
  | generic (rect : GoRect) (atRGBA : Int → Int → ℕ × ℕ × ℕ × ℕ)

/-- Bounds of an image (`img.Bounds()`). -/
def GoImage.bounds : GoImage → GoRect
  | .nrgba a => a.rect
  | .ycbcr b => b.rect
  | .generic r _ => r

/-- Write a byte at an index of a buffer.  On the happy path all indices are
in range; Go would panic on an out-of-range write, `List.set` ignores it. -/
def setByte (l : List ℕ) (i : Int) (v : ℕ) : List ℕ :=
  l.set i.toNat v

/-- Go's `copy(dst[di:di+len], src[si:si+len])` on byte buffers. -/
def copySeg (dstPix srcPix : List ℕ) (di si : Int) (len : ℕ) : List ℕ :=
  (List.range len).foldl
    (fun px k => setByte px (di + k) (srcPix.getD (si + k).toNat 0)) dstPix

/-- Slow path of `ImgToNRGBA` for an `*image.NRGBA` source whose bounds do
not start at the origin: row-by-row copy (the source repeats the whole-row
copy `dstW` times, which is value-equivalent to a single copy). -/
def convertNRGBA (src : NRGBA) : NRGBA :=
  let srcBounds := src.rect
  let dstBounds := srcBounds.sub srcBounds.min
  let dstW := dstBounds.dx
  let dstH := dstBounds.dy
  let dst := newNRGBA dstBounds
  let rowSize := srcBounds.dx * 4
  let pixOut := (List.range dstH.toNat).foldl
    (fun px dstY =>
      let di := dst.pixOffset 0 dstY
      let si := src.pixOffset srcBounds.min.x (srcBounds.min.y + dstY)
      (List.range dstW.toNat).foldl
        (fun px _ => copySeg px src.pix di si rowSize.toNat) px)
    dst.pix
  ⟨pixOut, dst.stride, dst.rect⟩

/-- Slow path of `ImgToNRGBA` for an `*image.YCbCr` source.  `y2r` abstracts
`color.YCbCrToRGB` of Go's standard library. -/
def convertYCbCr (y2r : ℕ → ℕ → ℕ → ℕ × ℕ × ℕ) (src : YCbCrImg) : NRGBA :=
  let srcBounds := src.rect
  let dstBounds := srcBounds.sub srcBounds.min
  let dstW := dstBounds.dx
  let dstH := dstBounds.dy
  let dst := newNRGBA dstBounds
  let pixOut := (List.range dstH.toNat).foldl
    (fun px dstY =>
      ((List.range dstW.toNat).foldl
        (fun (st : List ℕ × Int) dstX =>
          let (px, di) := st
          let srcX := srcBounds.min.x + dstX
          let srcY := srcBounds.min.y + dstY
          let siy := src.yOff srcX srcY
          let sic := src.cOff srcX srcY
          let rgb := y2r (src.yPlane.getD siy.toNat 0)
            (src.cbPlane.getD sic.toNat 0) (src.crPlane.getD sic.toNat 0)
          let px := setByte px di rgb.1
          let px := setByte px (di + 1) rgb.2.1
          let px := setByte px (di + 2) rgb.2.2
          let px := setByte px (di + 3) 0xff
          (px, di + 4))
        (px, dst.pixOffset 0 dstY)).1)
    dst.pix
  ⟨pixOut, dst.stride, dst.rect⟩

/-- Slow path of `ImgToNRGBA` for any other image kind, via the abstracted
per-pixel color lookup. -/
def convertGeneric (rect : GoRect) (atRGBA : Int → Int → ℕ × ℕ × ℕ × ℕ) :
    NRGBA :=
  let dstBounds := rect.sub rect.min
  let dstW := dstBounds.dx
  let dstH := dstBounds.dy
  let dst := newNRGBA dstBounds
  let pixOut := (List.range dstH.toNat).foldl
    (fun px dstY =>
      ((List.range dstW.toNat).foldl
        (fun (st : List ℕ × Int) dstX =>
          let (px, di) := st
          let c := atRGBA (rect.min.x + dstX) (rect.min.y + dstY)
          let px := setByte px di c.1
          let px := setByte px (di + 1) c.2.1
          let px := setByte px (di + 2) c.2.2.1
          let px := setByte px (di + 3) c.2.2.2
          (px, di + 4))
        (px, dst.pixOffset 0 dstY)).1)
    dst.pix
  ⟨pixOut, dst.stride, dst.rect⟩

/-- Embedding of the source's `ImgToNRGBA`: if the input is already an
`*image.NRGBA` whose bounds minimum is the origin it is returned as is;
otherwise a fresh origin-based NRGBA image is filled from the input
(the origin test only selects the fast path for the NRGBA variant, exactly
as in the source). -/
def ImgToNRGBA (y2r : ℕ → ℕ → ℕ → ℕ × ℕ × ℕ) (img : GoImage) : NRGBA :=
  match img with
  | .nrgba src0 =>
      if src0.rect.min.x = 0 ∧ src0.rect.min.y = 0 then src0
      else convertNRGBA src0
  | .ycbcr src => convertYCbCr y2r src
  | .generic r atRGBA => convertGeneric r atRGBA

/-! Section: detection data model. -/

/-- A candidate face: integer center row/column, integer window side
(`Scale`), and rational confidence score (`Q`, a `float32` in Go). -/
structure Detection where
  row : Int
  col : Int
  scale : Int
  q : ℚ
deriving DecidableEq

/-- Error kinds of the pipeline.  `readError` stands for a failed
`ioutil.ReadFile`; the other two are the deserializer's error kinds from the
specification. -/
inductive PigoError where
  | readError
  | truncatedStream
  | invalidShape
deriving DecidableEq

/-- Parsed cascade model (`Pigo` struct): tree shape, flat array of signed
8-bit node offsets (4 per internal node, grouped tree by tree), leaf
predictions, and per-tree stage thresholds. -/
structure Pigo where
  treeDepth : Int
  treeNum : Int
  treeCodes : List Int
  treePred : List ℚ
  treeThreshold : List ℚ
deriving DecidableEq

/-! Section: cascade deserializer (modelled from the spec, §4.A). -/

/-- Little-endian unsigned 32-bit read at `off`, `none` when the four bytes
are not all present. -/
def readU32LE (bs : List ℕ) (off : ℕ) : Option ℕ :=
  if off + 4 ≤ bs.length then
    some (bs.getD off 0 + 256 * bs.getD (off + 1) 0 +
      65536 * bs.getD (off + 2) 0 + 16777216 * bs.getD (off + 3) 0)
  else none

/-- Two's-complement reading of an unsigned 32-bit value. -/
def i32OfU32 (u : ℕ) : Int :=
  if u < 2 ^ 31 then (u : Int) else (u : Int) - 2 ^ 32

/-- Little-endian signed 32-bit read at `off`. -/
def readI32LE (bs : List ℕ) (off : ℕ) : Option Int :=
  (readU32LE bs off).map i32OfU32

/-- Two's-complement reading of an unsigned byte as a signed 8-bit value. -/
def i8OfByte (b : ℕ) : Int :=
  if b < 128 then (b : Int) else (b : Int) - 256

/-- Exact rational value of an IEEE-754 binary32 bit pattern.  The spec
restricts scores to finite floats; the infinity/NaN patterns (exponent 255)
fall outside it and are mapped to 0. -/
def decodeF32 (u : ℕ) : ℚ :=
  let sign : ℚ := if u / 2 ^ 31 % 2 = 1 then -1 else 1
  let e : ℕ := u / 2 ^ 23 % 256
  let m : ℕ := u % 2 ^ 23
  if e = 255 then 0
  else if e = 0 then sign * (m : ℚ) / 2 ^ 149
  else sign * ((2 ^ 23 + m : ℕ) : ℚ) * 2 ^ e / 2 ^ 150

/-- Byte length of the whole cascade layout for a given header: 16 header
bytes, then per tree `(2^depth - 1) * 4` node bytes, `2^depth` 4-byte leaf
floats, and one 4-byte threshold float. -/
def cascadeLayoutLen (depth count : Int) : ℕ :=
  16 + count.toNat * ((2 ^ depth.toNat - 1) * 4 + 2 ^ depth.toNat * 4 + 4)

/-- Modelled from the spec: the binary cascade deserializer
(`pigo.Unpack` composed with `NewPigo`, which only creates the empty
struct).  Layout, little-endian: 8 reserved bytes, `tree_depth` (i32),
`tree_count` (i32), then per tree the node block, the leaf block and the
stage threshold.  `TruncatedStream` when a field cannot be read in full
(the header fields, or — once the header declares a valid shape — the body
falling short of the declared layout); `InvalidShape` when
`tree_depth ≤ 0`, `tree_count ≤ 0`, or `tree_depth` exceeds the safety
ceiling 16 chosen per the spec's example. -/
def unpackBody (bs : List ℕ) (depth count : Int) : Pigo :=
  let nodes := (2 ^ depth.toNat - 1) * 4
  let leaves := 2 ^ depth.toNat
  let perTree := nodes + leaves * 4 + 4
  let base := fun (t : ℕ) => 16 + t * perTree
  { treeDepth := depth
    treeNum := count
    treeCodes := (List.range count.toNat).flatMap fun t =>
      (List.range nodes).map fun k => i8OfByte (bs.getD (base t + k) 0)
    treePred := (List.range count.toNat).flatMap fun t =>
      (List.range leaves).map fun l =>
        decodeF32 ((readU32LE bs (base t + nodes + 4 * l)).getD 0)
    treeThreshold := (List.range count.toNat).map fun t =>
      decodeF32 ((readU32LE bs (base t + nodes + 4 * leaves)).getD 0) }

/-- Modelled from the spec: the top-level deserializer dispatch — header
reads, shape validation, layout-length check, then the body parse. -/
def unpackCascade (bs : List ℕ) : Except PigoError Pigo :=
  match readI32LE bs 8, readI32LE bs 12 with
  | some depth, some count =>
    if depth ≤ 0 ∨ count ≤ 0 ∨ 16 < depth then .error .invalidShape
    else if bs.length < cascadeLayoutLen depth count then
      .error .truncatedStream
    else .ok (unpackBody bs depth count)
  | _, _ => .error .truncatedStream

/-! Section: grayscale conversion (modelled from the spec, §6). -/

/-- Modelled from the spec: `RgbToGrayscale`, the ITU-R BT.601 luma
`y = 0.299 R + 0.587 G + 0.114 B` truncated to 8 bits, over an
origin-based NRGBA image, row-major. -/
def rgbToGrayscale (a : NRGBA) : List ℕ :=
  (List.range a.rect.dy.toNat).flatMap fun y =>
    (List.range a.rect.dx.toNat).map fun x =>
      let off := (a.pixOffset x y).toNat
      let r : ℚ := a.pix.getD off 0
      let g : ℚ := a.pix.getD (off + 1) 0
      let b : ℚ := a.pix.getD (off + 2) 0
      (⌊299 / 1000 * r + 587 / 1000 * g + 114 / 1000 * b⌋).toNat

/-! Section: window classifier and sweep (modelled from the spec, §4.B–§4.C). -/

/-- Image descriptor handed to the runner (`pigo.ImageParams`): flat
grayscale buffer, size, and stride (`Dim`). -/
structure ImageParams where
  pixels : List ℕ
  rows : Int
  cols : Int
  dim : Int
deriving DecidableEq

/-- Sweep descriptor (`pigo.CascadeParams`). -/
structure CascadeParams where
  minSize : Int
  maxSize : Int
  shiftFactor : ℚ
  scaleFactor : ℚ
  ip : ImageParams
deriving DecidableEq

/-- Clamp a coordinate to `[0, bound - 1]` (spec §4.B: sampled positions are
clamped to the image, not rejected). -/
def clampCoord (v bound : Int) : Int :=
  max 0 (min v (bound - 1))

/-- Clamped pixel fetch: `pixel(r, c) = buffer[r * stride + c]`. -/
def pxAt (ip : ImageParams) (r c : Int) : ℕ :=
  ip.pixels.getD (clampCoord r ip.rows * ip.dim + clampCoord c ip.cols).toNat 0

/-- Truncation of a rational toward zero, the behavior of Go's float-to-int
conversion (spec §4.B: rotated offsets are integer-truncated). -/
def truncQ (q : ℚ) : Int :=
  Int.tdiv q.num q.den

/-- Modelled from the spec: one level of tree descent.  Node `i` of tree `t`
holds four signed 8-bit offsets; the two sample points are the offsets
scaled by `s/256` (integer truncation), rotated by the window's angle when
`angle > 0`; descent goes to child `2i+1` on `pixel₁ ≤ pixel₂`, else to
`2i+2`. -/
def descendNode (pg : Pigo) (ip : ImageParams) (rot : Bool) (sinA cosA : ℚ)
    (r c s : Int) (t i : ℕ) : ℕ :=
  let nodesPerTree := 2 ^ pg.treeDepth.toNat - 1
  let base := (t * nodesPerTree + i) * 4
  let r1 := pg.treeCodes.getD base 0
  let c1 := pg.treeCodes.getD (base + 1) 0
  let r2 := pg.treeCodes.getD (base + 2) 0
  let c2 := pg.treeCodes.getD (base + 3) 0
  let dr1 := if rot then truncQ ((cosA * r1 - sinA * c1) * s / 256)
    else Int.tdiv (r1 * s) 256
  let dc1 := if rot then truncQ ((sinA * r1 + cosA * c1) * s / 256)
    else Int.tdiv (c1 * s) 256
  let dr2 := if rot then truncQ ((cosA * r2 - sinA * c2) * s / 256)
    else Int.tdiv (r2 * s) 256
  let dc2 := if rot then truncQ ((sinA * r2 + cosA * c2) * s / 256)
    else Int.tdiv (c2 * s) 256
  if pxAt ip (r + dr1) (c + dc1) ≤ pxAt ip (r + dr2) (c + dc2) then
    2 * i + 1
  else
    2 * i + 2

/-- Modelled from the spec: leaf index reached by tree `t` (descend
`tree_depth` levels from the root, then subtract the internal-node count). -/
def treeLeafIdx (pg : Pigo) (ip : ImageParams) (rot : Bool) (sinA cosA : ℚ)
    (r c s : Int) (t : ℕ) : ℕ :=
  (List.range pg.treeDepth.toNat).foldl
    (fun i _ => descendNode pg ip rot sinA cosA r c s t i) 0
    - (2 ^ pg.treeDepth.toNat - 1)

/-- Modelled from the spec: the Window Classifier (§4.B).  The running score
starts at 0, each tree adds its leaf prediction, and the window is rejected
as soon as the score is `≤` the tree's stage threshold.  `trig` abstracts
the sine/cosine evaluation at the window's angle (a fraction of a turn);
it is consulted once per window and used only when `angle > 0`. -/
def classifyWindow (trig : ℚ → ℚ × ℚ) (pg : Pigo) (ip : ImageParams)
    (r c s : Int) (angle : ℚ) : Option ℚ :=
  let sc := trig angle
  let rot := angle > 0
  (List.range pg.treeNum.toNat).foldl
    (fun acc t =>
      match acc with
      | none => none
      | some score =>
        let leaf := treeLeafIdx pg ip rot sc.1 sc.2 r c s t
        let score := score + pg.treePred.getD (t * 2 ^ pg.treeDepth.toNat + leaf) 0
        if score ≤ pg.treeThreshold.getD t 0 then none else some score)
    (some 0)

/-- Arithmetic progression `lo, lo + step, …` up to `hi` inclusive, the
values taken by a Go loop `for v := lo; v <= hi; v += step` with a positive
step. -/
def stepRange (lo hi step : Int) : List Int :=
  if hi < lo ∨ step ≤ 0 then []
  else (List.range ((hi - lo).toNat / step.toNat + 1)).map fun (k : ℕ) =>
    lo + (k : Int) * step

/-- Modelled from the spec: one row of the sweep at scale `s` and center row
`r`: columns step from `s/2` to `cols - s/2`; every accepted window emits a
`Detection`. -/
def sweepRow (trig : ℚ → ℚ × ℚ) (pg : Pigo) (ip : ImageParams)
    (angle : ℚ) (s step r : Int) : List Detection :=
  (stepRange (Int.tdiv s 2) (ip.cols - Int.tdiv s 2) step).filterMap fun c =>
    (classifyWindow trig pg ip r c s angle).map fun q => ⟨r, c, s, q⟩

/-- Modelled from the spec: all windows of one scale: the positional step is
`max(1, ⌊s · shift_factor⌋)`, rows from `s/2` to `rows - s/2`. -/
def sweepScale (trig : ℚ → ℚ × ℚ) (pg : Pigo) (cp : CascadeParams)
    (angle : ℚ) (s : Int) : List Detection :=
  let step := max 1 ⌊(s : ℚ) * cp.shiftFactor⌋
  (stepRange (Int.tdiv s 2) (cp.ip.rows - Int.tdiv s 2) step).flatMap fun r =>
    sweepRow trig pg cp.ip angle s step r

/-- Modelled from the spec: the scale loop.  While `s ≤ max_size` the scale
is swept and then grows geometrically, `s ← ⌊s · scale_factor⌋`, with `+1`
forced on stagnation.  The structural `fuel` bounds the iterations; under
the spec's invariants (`scale_factor > 1`, `min_size ≥ 1`) the scale grows
by at least 1 per round, so `max_size - min_size + 1` rounds always reach
the exit condition and the model agrees with the unbounded loop. -/
def sweepScales (trig : ℚ → ℚ × ℚ) (pg : Pigo) (cp : CascadeParams)
    (angle : ℚ) : ℕ → Int → List Detection
  | 0, _ => []
  | fuel + 1, s =>
    if s ≤ cp.maxSize then
      sweepScale trig pg cp angle s ++
        sweepScales trig pg cp angle fuel
          (if ⌊(s : ℚ) * cp.scaleFactor⌋ = s then s + 1
           else ⌊(s : ℚ) * cp.scaleFactor⌋)
    else []

/-- Modelled from the spec: `RunCascade` (§4.C sweep, §6 angle convention).
The angle, a fraction of a full turn, is reduced modulo 1 before use;
`trig` abstracts the sine/cosine pair at the reduced angle. -/
def runCascade (trig : ℚ → ℚ × ℚ) (pg : Pigo) (cp : CascadeParams)
    (angle : ℚ) : List Detection :=
  let a := angle - ⌊angle⌋
  sweepScales trig pg cp a (cp.maxSize - cp.minSize + 1).toNat cp.minSize

/-! Section: detection clusterer (modelled from the spec, §4.C). -/

/-- Intersection over union of the axis-aligned squares of two detections,
exactly the spec's formula (`0` when the union is empty). -/
def iou (d1 d2 : Detection) : ℚ :=
  let s1 : ℚ := d1.scale
  let s2 : ℚ := d2.scale
  let left := max ((d1.col : ℚ) - s1 / 2) ((d2.col : ℚ) - s2 / 2)
  let right := min ((d1.col : ℚ) + s1 / 2) ((d2.col : ℚ) + s2 / 2)
  let top := max ((d1.row : ℚ) - s1 / 2) ((d2.row : ℚ) - s2 / 2)
  let bot := min ((d1.row : ℚ) + s1 / 2) ((d2.row : ℚ) + s2 / 2)
  let inter := max 0 (right - left) * max 0 (bot - top)
  let uni := s1 ^ 2 + s2 ^ 2 - inter
  if uni = 0 then 0 else inter / uni

/-- Indexing of a detection list with an all-zero default. -/
def detGetD (l : List Detection) (i : ℕ) : Detection :=
  l.getD i ⟨0, 0, 0, 0⟩

/-- Join test of the clusterer: indices `i` and `j` are joined exactly when
their IoU exceeds the (clamped) threshold. -/
def detJoined (l : List Detection) (t : ℚ) (i j : ℕ) : Bool :=
  t < iou (detGetD l i) (detGetD l j)

/-- One round of component growth: add every index joined to a member. -/
def compStep (l : List Detection) (t : ℚ) (s : List ℕ) : List ℕ :=
  s ++ (List.range l.length).filter fun j =>
    !s.contains j && s.any fun i => detJoined l t i j

/-- Connected component of index `i` under the join relation, as the list of
indices reachable from `i`; `l.length` growth rounds always reach the
closure. -/
def component (l : List Detection) (t : ℚ) (i : ℕ) : List ℕ :=
  (compStep l t)^[l.length] [i]

/-- Representative of a component (spec §4.C): score-weighted means of the
members' coordinates (rounded down to integers) and the summed score. -/
def clusterRep (l : List Detection) (c : List ℕ) : Detection :=
  let ms := c.map (detGetD l)
  let sq := (ms.map (·.q)).sum
  { row := ⌊(ms.map fun d => d.q * (d.row : ℚ)).sum / sq⌋
    col := ⌊(ms.map fun d => d.q * (d.col : ℚ)).sum / sq⌋
    scale := ⌊(ms.map fun d => d.q * (d.scale : ℚ)).sum / sq⌋
    q := sq }

/-- Modelled from the spec: `ClusterDetections` (§4.C).  The threshold is
clamped to `[0, 1]`; detections are partitioned into connected components
of the pairwise `IoU > t` relation; each component emits one
score-weighted representative, in order of its minimum member index. -/
def clusterDetections (l : List Detection) (t : ℚ) : List Detection :=
  let tc := max 0 (min 1 t)
  (List.range l.length).filterMap fun i =>
    let c := component l tc i
    if c.all fun j => i ≤ j then some (clusterRep l c) else none

/-! Section: face-detector wrapper (`pigo.go`). -/

/-- The `faceDetector` struct: settings of the command-line pipeline. -/
structure FaceDetector where
  angle : ℚ
  cascadeFile : String
  destination : String
  minSize : Int
  maxSize : Int
  shiftFactor : ℚ
  scaleFactor : ℚ
  iouThreshold : ℚ

/-- The constructor `NewFaceDetector`. -/
def NewFaceDetector (destination cf : String) (minSize maxSize : Int)
    (shf scf iou_ angle : ℚ) : FaceDetector :=
  { angle := angle, cascadeFile := cf, destination := destination
    minSize := minSize, maxSize := maxSize, shiftFactor := shf
    scaleFactor := scf, iouThreshold := iou_ }

/-- Drawing commands of the `gg` context, recorded as an effect trace.  The
constant angular arguments `0` and `2π` of the full-circle `DrawArc` call
are fixed in the source and therefore omitted from the `drawArc` record. -/
inductive DrawOp where
  | drawImage (img : GoImage) (x y : Int)
  | drawArc (x y radius : ℚ)
  | drawRectangle (x y w h : ℚ)
  | setLineWidth (w : ℚ)
  | setStrokeStyle
  | stroke

/-- A `gg.Context`: canvas size plus the recorded drawing commands. -/
structure GGContext where
  width : Int
  height : Int
  ops : List DrawOp

/-- Go's `gg.NewContext(w, h)`. -/
def ggNewContext (w h : Int) : GGContext := ⟨w, h, []⟩

/-- The package-level mutable state of `pigo.go`: the drawing context
`var dc *gg.Context`, `nil` until assigned. -/
structure PigoState where
  dc : Option GGContext

/-- Cascade parameters exactly as `DetectFaces` builds them: sizes and
factors from the detector, image descriptor from the source image
(`cols, rows := src.Bounds().Max.X, src.Bounds().Max.Y`, `Dim = cols`). -/
def detectParams (fd : FaceDetector) (src : GoImage) (pixels : List ℕ) :
    CascadeParams :=
  { minSize := fd.minSize, maxSize := fd.maxSize
    shiftFactor := fd.shiftFactor, scaleFactor := fd.scaleFactor
    ip := { pixels := pixels, rows := src.bounds.max.y
            cols := src.bounds.max.x, dim := src.bounds.max.x } }

/-- Embedding of `faceDetector.DetectFaces`.  The Go method converts the
image, assigns the package-level `dc` to a fresh context with the source
image drawn into it, reads the cascade file (modelled by the abstract
filesystem `fs`), unpacks it, runs the cascade and clusters the result.
The returned triple is (result, package state after the call, list of file
reads performed).  `y2r` and `trig` abstract the standard-library color
conversion and the trigonometric evaluation, as elsewhere. -/
def DetectFaces (y2r : ℕ → ℕ → ℕ → ℕ × ℕ × ℕ) (trig : ℚ → ℚ × ℚ)
    (fs : String → Option (List ℕ)) (fd : FaceDetector) (src : GoImage)
    (_st : PigoState) :
    Except PigoError (List Detection) × PigoState × List String :=
  let res := ImgToNRGBA y2r src
  let pixels := rgbToGrayscale res
  let cols := src.bounds.max.x
  let rows := src.bounds.max.y
  let dcNew : GGContext := ⟨cols, rows, [DrawOp.drawImage src 0 0]⟩
  let stOut : PigoState := ⟨some dcNew⟩
  let cParams := detectParams fd src pixels
  match fs fd.cascadeFile with
  | none => (.error .readError, stOut, [fd.cascadeFile])
  | some bs =>
    match unpackCascade bs with
    | .error e => (.error e, stOut, [fd.cascadeFile])
    | .ok pg =>
      (.ok (clusterDetections (runCascade trig pg cParams fd.angle)
          fd.iouThreshold), stOut, [fd.cascadeFile])

/-- Marker drawn for one accepted face: the arc or rectangle stroke command
sequence of the `DrawFaces` loop body, with the source's integer divisions
(`face.Scale/2` divides before the float conversion). -/
def markerOps (isCircle : Bool) (face : Detection) : List DrawOp :=
  [if isCircle then
      DrawOp.drawArc (face.col : ℚ) (face.row : ℚ) ((Int.tdiv face.scale 2 : Int) : ℚ)
    else
      DrawOp.drawRectangle ((face.col - Int.tdiv face.scale 2 : Int) : ℚ)
        ((face.row - Int.tdiv face.scale 2 : Int) : ℚ)
        (face.scale : ℚ) (face.scale : ℚ),
    DrawOp.setLineWidth 2, DrawOp.setStrokeStyle, DrawOp.stroke]

/-- Rectangle appended for one accepted face:
`image.Rect(face.Col - face.Scale/2, face.Row - face.Scale/2, face.Scale,
face.Scale)` — the second corner is the absolute point `(Scale, Scale)`. -/
def faceRect (face : Detection) : GoRect :=
  goRect (face.col - Int.tdiv face.scale 2) (face.row - Int.tdiv face.scale 2)
    face.scale face.scale

/-- Embedding of `faceDetector.DrawFaces`, restricted to its caller-visible
computation: for every face whose score exceeds the gate `qThresh = 5.0` it
records the marker commands on the drawing context and appends the
rectangle; the trailing image-file encoding and re-reading are I/O against
the destination path and are outside this model. -/
def DrawFaces (faces : List Detection) (isCircle : Bool) (dc : GGContext) :
    GGContext × List GoRect :=
  faces.foldl
    (fun st face =>
      if face.q > 5 then
        (⟨st.1.width, st.1.height, st.1.ops ++ markerOps isCircle face⟩,
          st.2 ++ [faceRect face])
      else st)
    (dc, [])

/-! Section: helper lemmas about image normalization. -/

/-- Bounds rectangle of the NRGBA slow-path copy. -/
lemma convertNRGBA_rect (src : NRGBA) :
    (convertNRGBA src).rect = src.rect.sub src.rect.min := rfl

/-- Bounds rectangle of the YCbCr slow-path conversion. -/
lemma convertYCbCr_rect (y2r : ℕ → ℕ → ℕ → ℕ × ℕ × ℕ) (src : YCbCrImg) :
    (convertYCbCr y2r src).rect = src.rect.sub src.rect.min := rfl

/-- Bounds rectangle of the generic slow-path conversion. -/
lemma convertGeneric_rect (rect : GoRect)
    (atRGBA : Int → Int → ℕ × ℕ × ℕ × ℕ) :
    (convertGeneric rect atRGBA).rect = rect.sub rect.min := rfl

/-- Translating a rectangle by its own minimum puts it at the origin. -/
lemma GoRect.sub_min_min (r : GoRect) : (r.sub r.min).min = ⟨0, 0⟩ := by
  simp [GoRect.sub]

/-- Translation preserves the width. -/
lemma GoRect.sub_min_dx (r : GoRect) : (r.sub r.min).dx = r.dx := by
  simp [GoRect.sub, GoRect.dx]

/-- Translation preserves the height. -/
lemma GoRect.sub_min_dy (r : GoRect) : (r.sub r.min).dy = r.dy := by
  simp [GoRect.sub, GoRect.dy]

/-- Every result of `ImgToNRGBA` sits at the origin and keeps the input's
width and height. -/
lemma imgToNRGBA_rect (y2r : ℕ → ℕ → ℕ → ℕ × ℕ × ℕ) (img : GoImage) :
    (ImgToNRGBA y2r img).rect.min = ⟨0, 0⟩
    ∧ (ImgToNRGBA y2r img).rect.dx = img.bounds.dx
    ∧ (ImgToNRGBA y2r img).rect.dy = img.bounds.dy := by
  cases img with
  | nrgba a =>
    by_cases h : a.rect.min.x = 0 ∧ a.rect.min.y = 0
    · obtain ⟨hx, hy⟩ := h
      refine ⟨?_, ?_, ?_⟩
      · simp only [ImgToNRGBA, hx, hy, and_self, if_true]
        ext <;> simp [hx, hy]
      · simp [ImgToNRGBA, hx, hy, GoImage.bounds]
      · simp [ImgToNRGBA, hx, hy, GoImage.bounds]
    · refine ⟨?_, ?_, ?_⟩ <;>
        simp [ImgToNRGBA, h, GoImage.bounds, convertNRGBA_rect,
          GoRect.sub_min_min, GoRect.sub_min_dx, GoRect.sub_min_dy]
  | ycbcr b =>
    exact ⟨by simp [ImgToNRGBA, convertYCbCr_rect, GoRect.sub_min_min],
      by simp [ImgToNRGBA, GoImage.bounds, convertYCbCr_rect, GoRect.sub_min_dx],
      by simp [ImgToNRGBA, GoImage.bounds, convertYCbCr_rect, GoRect.sub_min_dy]⟩
  | generic r f =>
    exact ⟨by simp [ImgToNRGBA, convertGeneric_rect, GoRect.sub_min_min],
      by simp [ImgToNRGBA, GoImage.bounds, convertGeneric_rect, GoRect.sub_min_dx],
      by simp [ImgToNRGBA, GoImage.bounds, convertGeneric_rect, GoRect.sub_min_dy]⟩

/-- C9: `ImgToNRGBA` returns an already-normalized `*image.NRGBA` input (a
value whose bounds minimum is the origin) unchanged, it is idempotent on
every image, and its result always sits at the origin with the width and
height of the input. -/
theorem imgToNRGBA_normalization (y2r : ℕ → ℕ → ℕ → ℕ × ℕ × ℕ) :
    (∀ a : NRGBA, a.rect.min.x = 0 → a.rect.min.y = 0 →
        ImgToNRGBA y2r (GoImage.nrgba a) = a)
    ∧ (∀ img : GoImage,
        ImgToNRGBA y2r (GoImage.nrgba (ImgToNRGBA y2r img)) = ImgToNRGBA y2r img)
    ∧ (∀ img : GoImage,
        (ImgToNRGBA y2r img).rect.min = ⟨0, 0⟩
        ∧ (ImgToNRGBA y2r img).rect.dx = img.bounds.dx
        ∧ (ImgToNRGBA y2r img).rect.dy = img.bounds.dy) := by
  refine ⟨?_, ?_, imgToNRGBA_rect y2r⟩
  · intro a hx hy
    simp [ImgToNRGBA, hx, hy]
  · intro img
    have h := (imgToNRGBA_rect y2r img).1
    set X := ImgToNRGBA y2r img with hX
    have hx : X.rect.min.x = 0 := by rw [h]
    have hy : X.rect.min.y = 0 := by rw [h]
    show ImgToNRGBA y2r (GoImage.nrgba X) = X
    simp [ImgToNRGBA, hx, hy]

/-- Witness for C9: the theorem applied to a concrete normalized NRGBA
image, which is returned unchanged. -/
theorem imgToNRGBA_normalization_witness :
    ImgToNRGBA (fun _ _ _ => (0, 0, 0))
        (GoImage.nrgba ⟨[], 0, ⟨⟨0, 0⟩, ⟨0, 0⟩⟩⟩)
      = ⟨[], 0, ⟨⟨0, 0⟩, ⟨0, 0⟩⟩⟩ :=
  (imgToNRGBA_normalization _).1 _ rfl rfl

/-! Section: helper lemmas about the drawing loop. -/

/-- Unrolling of the `DrawFaces` fold: the context receives the marker
command blocks and the rectangle list receives the face rectangles of
exactly the faces passing the score gate, in order. -/
lemma drawFaces_foldl (isCircle : Bool) (faces : List Detection) :
    ∀ (dc : GGContext) (racc : List GoRect),
      faces.foldl
        (fun st face =>
          if face.q > 5 then
            (⟨st.1.width, st.1.height, st.1.ops ++ markerOps isCircle face⟩,
              st.2 ++ [faceRect face])
          else st)
        (dc, racc)
      = (⟨dc.width, dc.height,
            dc.ops ++ (faces.filter fun f => 5 < f.q).flatMap (markerOps isCircle)⟩,
          racc ++ (faces.filter fun f => 5 < f.q).map faceRect) := by
  induction faces with
  | nil => intro dc racc; simp
  | cons a l ih =>
    intro dc racc
    by_cases h : a.q > 5
    · simp only [List.foldl_cons, if_pos h]
      rw [ih]
      simp [List.filter_cons, h]
    · simp only [List.foldl_cons, if_neg h]
      rw [ih]
      simp [List.filter_cons, h]

/-- C10: `DrawFaces` returns, for exactly the faces with `Q > 5.0`, the
rectangle `image.Rect(Col - Scale/2, Row - Scale/2, Scale, Scale)`; its
second corner is the absolute point `(Scale, Scale)`, so for the face
`(row 100, col 100, scale 20)` the canonicalized rectangle is the 70×70
box from `(20, 20)` to `(90, 90)`, not a 20×20 square centered at
`(100, 100)`. -/
theorem drawFaces_rect_gate :
    (∀ (faces : List Detection) (isCircle : Bool) (dc : GGContext),
        (DrawFaces faces isCircle dc).2
          = (faces.filter fun f => 5 < f.q).map faceRect)
    ∧ faceRect ⟨100, 100, 20, 6⟩ = ⟨⟨20, 20⟩, ⟨90, 90⟩⟩
    ∧ GoRect.dx ⟨⟨20, 20⟩, ⟨90, 90⟩⟩ ≠ 20 := by
  refine ⟨?_, by decide, by decide⟩
  intro faces isCircle dc
  unfold DrawFaces
  rw [drawFaces_foldl]
  simp

/-! Section: concrete fixtures for witnesses and counterexamples. -/

/-- Trigonometric stub: constant sine 0 / cosine 1 (exact at angle 0). -/
def trig0 : ℚ → ℚ × ℚ := fun _ => (0, 1)

/-- Color-conversion stub for concrete runs. -/
def y2r0 : ℕ → ℕ → ℕ → ℕ × ℕ × ℕ := fun _ _ _ => (0, 0, 0)

/-- A minimal well-formed cascade stream: 8 reserved bytes, `tree_depth = 1`,
`tree_count = 1`, then one tree (4 node bytes, two 4-byte leaf floats and
one 4-byte threshold float, all zero). -/
def demoBytes : List ℕ :=
  [0, 0, 0, 0, 0, 0, 0, 0, 1, 0, 0, 0, 1, 0, 0, 0] ++ List.replicate 16 0

/-- The parsed form of `demoBytes`. -/
def demoPigo : Pigo := ⟨1, 1, [0, 0, 0, 0], [0, 0], [0]⟩

/-- Filesystem stub delivering `demoBytes` for every path. -/
def demoFs : String → Option (List ℕ) := fun _ => some demoBytes

deriving instance DecidableEq for Except

/-- A small face detector configuration. -/
def demoFd : FaceDetector :=
  { angle := 0, cascadeFile := "data/facefinder", destination := "out.png"
    minSize := 1, maxSize := 1, shiftFactor := 1, scaleFactor := 2
    iouThreshold := 0 }

/-- A degenerate (empty, origin-based) source image. -/
def demoSrc : GoImage := GoImage.nrgba ⟨[], 0, ⟨⟨0, 0⟩, ⟨0, 0⟩⟩⟩

/-! Section: theorems about `DetectFaces` (claims C1–C4). -/

/-- C1 counterexample: `DetectFaces` does change caller-observable state.
Starting from the nil package-level drawing context, the context after the
call is not nil: the method overwrites the package variable `dc`. -/
theorem detectFaces_mutates_state :
    (DetectFaces y2r0 trig0 demoFs demoFd demoSrc ⟨none⟩).2.1
      ≠ (⟨none⟩ : PigoState) := by
  unfold DetectFaces
  cases h : unpackCascade demoBytes <;> simp [demoFs, h]

/-- C1 (amended): the only caller-visible state change of `DetectFaces` is
the package-level drawing context, which every call overwrites with a fresh
context of the source's bounds holding the drawn source image; the returned
value and the performed file reads do not depend on the prior state. -/
theorem detectFaces_state_change (y2r : ℕ → ℕ → ℕ → ℕ × ℕ × ℕ)
    (trig : ℚ → ℚ × ℚ) (fs : String → Option (List ℕ)) (fd : FaceDetector)
    (src : GoImage) (st st2 : PigoState) :
    (DetectFaces y2r trig fs fd src st).2.1
      = ⟨some ⟨src.bounds.max.x, src.bounds.max.y, [DrawOp.drawImage src 0 0]⟩⟩
    ∧ (DetectFaces y2r trig fs fd src st).1
        = (DetectFaces y2r trig fs fd src st2).1
    ∧ (DetectFaces y2r trig fs fd src st).2.2
        = (DetectFaces y2r trig fs fd src st2).2.2 := by
  refine ⟨?_, rfl, rfl⟩
  unfold DetectFaces
  split
  · rfl
  · split <;> rfl

/-- C4 counterexample: even directly after a run that successfully read and
parsed the cascade file, the next `DetectFaces` call performs a (non-empty)
list of file reads: nothing is reused from the first run. -/
theorem detectFaces_rereads_cascade :
    (DetectFaces y2r0 trig0 demoFs demoFd demoSrc
        (DetectFaces y2r0 trig0 demoFs demoFd demoSrc ⟨none⟩).2.1).2.2
      ≠ [] := by
  unfold DetectFaces
  cases h : unpackCascade demoBytes <;> simp [demoFs, h]

/-- C4 (amended): every call to `DetectFaces` re-reads (and hence
re-unpacks) the cascade byte stream: the reads performed by a call are
exactly one read of the configured cascade file, whatever the package state
holds.  No parsed model is retained between runs; the package state holds
only the drawing context. -/
theorem detectFaces_reads_every_call (y2r : ℕ → ℕ → ℕ → ℕ × ℕ × ℕ)
    (trig : ℚ → ℚ × ℚ) (fs : String → Option (List ℕ)) (fd : FaceDetector)
    (src : GoImage) (st : PigoState) :
    (DetectFaces y2r trig fs fd src st).2.2 = [fd.cascadeFile] := by
  unfold DetectFaces
  split
  · rfl
  · split <;> rfl

/-- The deserializer never produces the read-failure error kind. -/
lemma unpackCascade_ne_readError (bs : List ℕ) :
    unpackCascade bs ≠ .error .readError := by
  unfold unpackCascade
  split
  · split_ifs <;> simp
  · simp

/-- C2: only the deserializer (and the file read feeding it) is fallible.
`DetectFaces` reports the read-failure error exactly when the cascade file
cannot be read; once the file is read, it reports an error exactly when
`Unpack` does (and with the same error); and whenever `Unpack` succeeds the
call returns a (possibly empty) detection list — the sweep and the
clusterer, total functions into lists, never fail. -/
theorem detectFaces_fallibility (y2r : ℕ → ℕ → ℕ → ℕ × ℕ × ℕ)
    (trig : ℚ → ℚ × ℚ) (fs : String → Option (List ℕ)) (fd : FaceDetector)
    (src : GoImage) (st : PigoState) :
    ((DetectFaces y2r trig fs fd src st).1 = .error .readError
      ↔ fs fd.cascadeFile = none)
    ∧ ∀ bs, fs fd.cascadeFile = some bs →
        ((∀ e, (DetectFaces y2r trig fs fd src st).1 = .error e
            ↔ unpackCascade bs = .error e)
         ∧ ∀ pg, unpackCascade bs = .ok pg →
            ∃ ds : List Detection,
              (DetectFaces y2r trig fs fd src st).1 = .ok ds) := by
  unfold DetectFaces
  cases hfs : fs fd.cascadeFile with
  | none => exact ⟨by simp, fun bs hbs => by simp at hbs⟩
  | some bs0 =>
    refine ⟨?_, ?_⟩
    · cases hpg : unpackCascade bs0 with
      | error e =>
        have hne := unpackCascade_ne_readError bs0
        rw [hpg] at hne
        simp only [hpg]
        simp only [Except.error.injEq]
        constructor
        · intro h
          exact absurd (by rw [h]) hne
        · intro h
          cases h
      | ok pg => simp [hpg]
    · intro bs hbs
      obtain rfl : bs0 = bs := by simpa using hbs
      constructor
      · intro e
        cases hpg : unpackCascade bs0 with
        | error e0 => simp [hpg]
        | ok pg => simp [hpg]
      · intro pg hpg
        simp only [hpg]
        exact ⟨_, rfl⟩

set_option maxRecDepth 8000 in
/-- Witness for C2: on the demo fixtures the cascade file reads and unpacks
successfully and the call returns a detection list. -/
theorem detectFaces_fallibility_witness :
    ∃ ds : List Detection,
      (DetectFaces y2r0 trig0 demoFs demoFd demoSrc ⟨none⟩).1
        = Except.ok ds :=
  ((detectFaces_fallibility y2r0 trig0 demoFs demoFd demoSrc ⟨none⟩).2
      demoBytes rfl).2 demoPigo (by with_unfolding_all decide)

/-- C3: the detection core applies no score gate — the value returned by a
successful `DetectFaces` call is exactly the clusterer's output on the
sweep's output, whatever the scores; the `Q > 5.0` gate exists only in the
drawing layer, where `DrawFaces` records a marker command block for exactly
the faces passing the gate. -/
theorem detectFaces_no_score_gate (y2r : ℕ → ℕ → ℕ → ℕ × ℕ × ℕ)
    (trig : ℚ → ℚ × ℚ) (fs : String → Option (List ℕ)) (fd : FaceDetector)
    (src : GoImage) (st : PigoState) (bs : List ℕ) (pg : Pigo)
    (hfs : fs fd.cascadeFile = some bs)
    (hpg : unpackCascade bs = Except.ok pg) :
    ((DetectFaces y2r trig fs fd src st).1
      = Except.ok (clusterDetections
          (runCascade trig pg
            (detectParams fd src (rgbToGrayscale (ImgToNRGBA y2r src)))
            fd.angle)
          fd.iouThreshold))
    ∧ ∀ (faces : List Detection) (isCircle : Bool) (dc : GGContext),
        (DrawFaces faces isCircle dc).1.ops
          = dc.ops ++ (faces.filter fun f => 5 < f.q).flatMap
              (markerOps isCircle) := by
  constructor
  · unfold DetectFaces
    simp only [hfs, hpg]
  · intro faces isCircle dc
    unfold DrawFaces
    rw [drawFaces_foldl]

set_option maxRecDepth 8000 in
/-- Witness for C3: the gate-free return value on the demo fixtures. -/
theorem detectFaces_no_score_gate_witness :
    (DetectFaces y2r0 trig0 demoFs demoFd demoSrc ⟨none⟩).1
      = Except.ok (clusterDetections
          (runCascade trig0 demoPigo
            (detectParams demoFd demoSrc
              (rgbToGrayscale (ImgToNRGBA y2r0 demoSrc)))
            demoFd.angle)
          demoFd.iouThreshold) :=
  (detectFaces_no_score_gate y2r0 trig0 demoFs demoFd demoSrc ⟨none⟩
      demoBytes demoPigo rfl (by with_unfolding_all decide)).1

/-! Section: theorems about the deserializer (claim C5). -/

/-- Reduction of the deserializer once the header has been read. -/
lemma unpackCascade_of_header (bs : List ℕ) (d c : Int)
    (h8 : readI32LE bs 8 = some d) (h12 : readI32LE bs 12 = some c) :
    unpackCascade bs
      = if d ≤ 0 ∨ c ≤ 0 ∨ 16 < d then .error .invalidShape
        else if bs.length < cascadeLayoutLen d c then .error .truncatedStream
        else .ok (unpackBody bs d c) := by
  unfold unpackCascade
  rw [h8, h12]

/-- C5: error classification of the deserializer.  A stream too short for
the 16-byte header is rejected as `TruncatedStream`; with the header read,
a non-positive `tree_depth` or `tree_count`, or a `tree_depth` above the
safety ceiling 16, is rejected as `InvalidShape`; a valid shape whose body
falls short of the declared layout is rejected as `TruncatedStream`; in
each error case no model is returned, and with a valid shape and a complete
stream a model is returned. -/
theorem unpackCascade_error_classification (bs : List ℕ) :
    (bs.length < 16 → unpackCascade bs = .error .truncatedStream)
    ∧ ∀ d c, readI32LE bs 8 = some d → readI32LE bs 12 = some c →
        (((d ≤ 0 ∨ c ≤ 0 ∨ 16 < d) → unpackCascade bs = .error .invalidShape)
         ∧ (¬(d ≤ 0 ∨ c ≤ 0 ∨ 16 < d) → bs.length < cascadeLayoutLen d c →
              unpackCascade bs = .error .truncatedStream)
         ∧ (¬(d ≤ 0 ∨ c ≤ 0 ∨ 16 < d) → cascadeLayoutLen d c ≤ bs.length →
              unpackCascade bs = .ok (unpackBody bs d c))
         ∧ ∀ e, unpackCascade bs = .error e →
              ∀ pg, unpackCascade bs ≠ .ok pg) := by
  constructor
  · intro hlen
    have h12 : readI32LE bs 12 = none := by
      unfold readI32LE readU32LE
      have : ¬ (12 + 4 ≤ bs.length) := by omega
      simp [this]
    unfold unpackCascade
    rw [h12]
    cases readI32LE bs 8 <;> rfl
  · intro d c h8 h12
    rw [unpackCascade_of_header bs d c h8 h12]
    refine ⟨fun hbad => by rw [if_pos hbad], fun hgood hshort => ?_,
      fun hgood hlong => ?_, fun e herr pg hok => ?_⟩
    · rw [if_neg hgood, if_pos hshort]
    · rw [if_neg hgood, if_neg (by omega : ¬ bs.length < cascadeLayoutLen d c)]
    · rw [herr] at hok
      cases hok

/-- Witness for C5: on `demoBytes` the header reads as depth 1, count 1,
the shape is valid, the 32-byte layout fits, and a model is returned. -/
theorem unpackCascade_error_classification_witness :
    unpackCascade demoBytes = Except.ok (unpackBody demoBytes 1 1) :=
  (((unpackCascade_error_classification demoBytes).2 1 1 rfl rfl).2.2.1)
    (by decide) (by decide)

/-! Section: theorem about angle reduction (claim C8). -/

/-- C8: angles are fractions of a full turn taken modulo 1 — the sweep run
at angle `a + 1` is identical to the sweep run at angle `a`, for every
trigonometric evaluation, model, image and parameter set, because
`RunCascade` reduces the angle modulo 1 before any use. -/
theorem runCascade_angle_mod_one (trig : ℚ → ℚ × ℚ) (pg : Pigo)
    (cp : CascadeParams) (a : ℚ) :
    runCascade trig pg cp (a + 1) = runCascade trig pg cp a := by
  unfold runCascade
  have h : a + 1 - (⌊a + 1⌋ : ℚ) = a - (⌊a⌋ : ℚ) := by
    rw [Int.floor_add_one]
    push_cast
    ring
  rw [h]

/-! Section: theorems about the sweep (claim C6). -/

/-- Values of a stepped loop range lie between its endpoints. -/
lemma stepRange_mem {lo hi step x : Int} (hx : x ∈ stepRange lo hi step) :
    lo ≤ x ∧ x ≤ hi := by
  unfold stepRange at hx
  split at hx
  · simp at hx
  · rename_i hcond
    push_neg at hcond
    obtain ⟨hlohi, hstep⟩ := hcond
    obtain ⟨k, hk, rfl⟩ := List.mem_map.1 hx
    rw [List.mem_range] at hk
    have hk2 : k ≤ (hi - lo).toNat / step.toNat := Nat.le_of_lt_succ hk
    have hmul : k * step.toNat ≤ (hi - lo).toNat :=
      (Nat.le_div_iff_mul_le (by omega)).1 hk2
    have hcast : ((k * step.toNat : ℕ) : Int) ≤ (((hi - lo).toNat : ℕ) : Int) := by
      exact_mod_cast hmul
    rw [Nat.cast_mul, Int.toNat_of_nonneg (by omega : (0:Int) ≤ step),
      Int.toNat_of_nonneg (by omega : (0:Int) ≤ hi - lo)] at hcast
    have hnn : 0 ≤ (k : Int) * step :=
      mul_nonneg (by positivity) (by omega)
    constructor
    · linarith
    · linarith

/-- Detections emitted at one scale carry that scale and a center inside
the stepped ranges of the scale. -/
lemma sweepScale_mem {trig : ℚ → ℚ × ℚ} {pg : Pigo} {cp : CascadeParams}
    {angle : ℚ} {s : Int} {d : Detection}
    (hd : d ∈ sweepScale trig pg cp angle s) :
    d.scale = s
    ∧ Int.tdiv s 2 ≤ d.row ∧ d.row ≤ cp.ip.rows - Int.tdiv s 2
    ∧ Int.tdiv s 2 ≤ d.col ∧ d.col ≤ cp.ip.cols - Int.tdiv s 2 := by
  unfold sweepScale sweepRow at hd
  simp only [List.mem_flatMap, List.mem_filterMap, Option.map_eq_some'] at hd
  obtain ⟨r, hr, c, hc, q, _, rfl⟩ := hd
  obtain ⟨hr1, hr2⟩ := stepRange_mem hr
  obtain ⟨hc1, hc2⟩ := stepRange_mem hc
  exact ⟨rfl, hr1, hr2, hc1, hc2⟩

/-- Invariant of the scale loop: starting from a non-negative scale, every
emitted detection's scale lies between the starting scale and `max_size`,
and its center respects the stepped ranges of its own scale. -/
lemma sweepScales_mem {trig : ℚ → ℚ × ℚ} {pg : Pigo} {cp : CascadeParams}
    {angle : ℚ} (hsf : 1 < cp.scaleFactor) :
    ∀ (fuel : ℕ) (s : Int), 0 ≤ s →
      ∀ d ∈ sweepScales trig pg cp angle fuel s,
        s ≤ d.scale ∧ d.scale ≤ cp.maxSize
        ∧ Int.tdiv d.scale 2 ≤ d.row
        ∧ d.row ≤ cp.ip.rows - Int.tdiv d.scale 2
        ∧ Int.tdiv d.scale 2 ≤ d.col
        ∧ d.col ≤ cp.ip.cols - Int.tdiv d.scale 2 := by
  intro fuel
  induction fuel with
  | zero => intro s _ d hd; simp [sweepScales] at hd
  | succ n ih =>
    intro s hs d hd
    unfold sweepScales at hd
    split at hd
    · rename_i hle
      rw [List.mem_append] at hd
      cases hd with
      | inl h =>
        obtain ⟨hscale, h1, h2, h3, h4⟩ := sweepScale_mem h
        rw [hscale]
        exact ⟨le_refl s, hle, h1, h2, h3, h4⟩
      | inr h =>
        have hnext : s ≤ (if ⌊(s : ℚ) * cp.scaleFactor⌋ = s then s + 1
            else ⌊(s : ℚ) * cp.scaleFactor⌋) := by
          split
          · omega
          · rw [Int.le_floor]
            calc ((s : Int) : ℚ) = (s : ℚ) * 1 := by ring
              _ ≤ (s : ℚ) * cp.scaleFactor := by
                  apply mul_le_mul_of_nonneg_left (le_of_lt hsf)
                  exact_mod_cast hs
        have hrec := ih _ (le_trans hs hnext) d h
        exact ⟨le_trans hnext hrec.1, hrec.2⟩
    · simp at hd

/-- Half of a scale of at least 2, under Go's truncating division, is at
least 1. -/
lemma one_le_tdiv_two {s : Int} (h : 2 ≤ s) : 1 ≤ Int.tdiv s 2 := by
  obtain ⟨n, rfl⟩ := Int.eq_ofNat_of_zero_le (by omega : (0 : Int) ≤ s)
  have heq : Int.tdiv (n : Int) 2 = ((n / 2 : ℕ) : Int) := rfl
  rw [heq]
  omega

/-- C6 (amended): for parameters satisfying the invariants and a minimum
window side of at least 2, every detection emitted by the sweep has a scale
between `min_size` and `max_size` and a center strictly inside the image
(for `min_size = 1` the row/column loops can reach the image bound itself;
see the counterexample). -/
theorem runCascade_detections_in_range (trig : ℚ → ℚ × ℚ) (pg : Pigo)
    (cp : CascadeParams) (angle : ℚ)
    (hmin2 : 2 ≤ cp.minSize) (_hminmax : cp.minSize ≤ cp.maxSize)
    (_hshift0 : 0 < cp.shiftFactor) (_hshift1 : cp.shiftFactor ≤ 1)
    (hsf : 1 < cp.scaleFactor) :
    ∀ d ∈ runCascade trig pg cp angle,
      (cp.minSize ≤ d.scale ∧ d.scale ≤ cp.maxSize)
      ∧ (0 < d.row ∧ d.row < cp.ip.rows)
      ∧ (0 < d.col ∧ d.col < cp.ip.cols) := by
  intro d hd
  unfold runCascade at hd
  obtain ⟨h1, h2, h3, h4, h5, h6⟩ :=
    sweepScales_mem hsf _ cp.minSize (by omega) d hd
  have htd : 1 ≤ Int.tdiv d.scale 2 := one_le_tdiv_two (by omega)
  exact ⟨⟨h1, h2⟩, ⟨by omega, by omega⟩, ⟨by omega, by omega⟩⟩

/-- An always-accepting one-tree cascade (zero offsets compare a pixel with
itself, the positive leaf prediction beats the zero stage threshold). -/
def sweepCexPigo : Pigo := ⟨1, 1, [0, 0, 0, 0], [1, 1], [0]⟩

/-- Sweep parameters satisfying all the spec invariants with `min_size = 1`
on a 1×1 image. -/
def sweepCexParams : CascadeParams := ⟨1, 1, 1, 2, ⟨[0], 1, 1, 1⟩⟩

/-- C6 counterexample: with `min_size = 1` — a parameter set satisfying
every invariant of the spec — the sweep emits the detection centered at
`(row 1, col 1)` on a 1×1 image, whose center is the image bound itself,
not strictly inside it. -/
theorem runCascade_boundary_cex :
    ((0 : Int) < sweepCexParams.minSize
      ∧ sweepCexParams.minSize ≤ sweepCexParams.maxSize
      ∧ (0 : ℚ) < sweepCexParams.shiftFactor
      ∧ sweepCexParams.shiftFactor ≤ 1
      ∧ (1 : ℚ) < sweepCexParams.scaleFactor)
    ∧ Detection.mk 1 1 1 1 ∈ runCascade trig0 sweepCexPigo sweepCexParams 0
    ∧ ¬ (Detection.mk 1 1 1 1).row < sweepCexParams.ip.rows := by
  with_unfolding_all decide

/-- Sweep parameters with `min_size = 2` on a 3×3 image. -/
def sweepWitParams : CascadeParams :=
  ⟨2, 2, 1, 2, ⟨List.replicate 9 0, 3, 3, 3⟩⟩

/-- Witness for C6 (amended): the bounds theorem applied to a concrete run,
which emits the detection `(row 1, col 1, scale 2)` — strictly inside the
3×3 image and with its scale inside `[min_size, max_size]`. -/
theorem runCascade_detections_in_range_witness :
    (sweepWitParams.minSize ≤ (Detection.mk 1 1 2 1).scale
      ∧ (Detection.mk 1 1 2 1).scale ≤ sweepWitParams.maxSize)
    ∧ (0 < (Detection.mk 1 1 2 1).row
      ∧ (Detection.mk 1 1 2 1).row < sweepWitParams.ip.rows)
    ∧ (0 < (Detection.mk 1 1 2 1).col
      ∧ (Detection.mk 1 1 2 1).col < sweepWitParams.ip.cols) :=
  runCascade_detections_in_range trig0 sweepCexPigo sweepWitParams 0
    (by decide) (by decide) (by with_unfolding_all decide)
    (by with_unfolding_all decide) (by with_unfolding_all decide)
    (Detection.mk 1 1 2 1) (by with_unfolding_all decide)

/-! Section: theorems about the clusterer (claim C7). -/

/-- Reading a detection list back out over its index range reproduces the
list. -/
lemma map_detGetD_range (l : List Detection) :
    (List.range l.length).map (fun i => detGetD l i) = l := by
  induction l with
  | nil => rfl
  | cons a t ih =>
    rw [List.length_cons, List.range_succ_eq_map, List.map_cons, List.map_map]
    have h0 : detGetD (a :: t) 0 = a := rfl
    have hs : ((fun i => detGetD (a :: t) i) ∘ Nat.succ)
        = fun i => detGetD t i := rfl
    rw [h0, hs, ih]

/-- Indexing inside the list is membership. -/
lemma detGetD_mem (l : List Detection) (i : ℕ) (hi : i < l.length) :
    detGetD l i ∈ l := by
  unfold detGetD
  rw [List.getD_eq_getElem l _ hi]
  exact List.getElem_mem hi

/-- A singleton component's representative is its member, whenever the
member's score is positive (the score-weighted mean of one detection is the
detection itself). -/
lemma clusterRep_singleton (l : List Detection) (i : ℕ)
    (h : 0 < (detGetD l i).q) :
    clusterRep l [i] = detGetD l i := by
  unfold clusterRep
  have hne : (detGetD l i).q ≠ 0 := ne_of_gt h
  simp only [List.map_cons, List.map_nil, List.sum_cons, List.sum_nil,
    add_zero]
  rw [mul_div_cancel_left₀ _ hne, mul_div_cancel_left₀ _ hne,
    mul_div_cancel_left₀ _ hne, Int.floor_intCast, Int.floor_intCast,
    Int.floor_intCast]

/-- A component grows by nothing when its seed is joined to no other
index. -/
lemma compStep_fixed (l : List Detection) (t : ℚ) (i : ℕ)
    (h : ∀ j, j < l.length → j ≠ i → ¬ detJoined l t i j) :
    compStep l t [i] = [i] := by
  unfold compStep
  have hnil : ((List.range l.length).filter fun j =>
      !([i].contains j) && [i].any fun i0 => detJoined l t i0 j) = [] := by
    rw [List.filter_eq_nil_iff]
    intro j hj
    rw [List.mem_range] at hj
    by_cases hji : j = i
    · subst hji; simp
    · simp [hji, h j hj hji]
  rw [hnil, List.append_nil]

/-- When no two distinct detections of a list are joined, clustering
returns the list unchanged (every component is a singleton, every
representative its member). -/
lemma cluster_sep_identity (l : List Detection) (t : ℚ)
    (hq : ∀ d ∈ l, 0 < d.q)
    (h : ∀ i, i < l.length → ∀ j, j < l.length → i ≠ j →
          iou (detGetD l i) (detGetD l j) ≤ max 0 (min 1 t)) :
    clusterDetections l t = l := by
  have hcomp : ∀ i, i < l.length →
      component l (max 0 (min 1 t)) i = [i] := by
    intro i hi
    exact Function.iterate_fixed
      (compStep_fixed l _ i fun j hj hji => by
        simp only [detJoined, decide_eq_true_eq, not_lt]
        exact h i hi j hj (Ne.symm hji)) l.length
  have hfun : ∀ i ∈ List.range l.length,
      (fun i =>
        let c := component l (max 0 (min 1 t)) i
        if c.all fun j => i ≤ j then some (clusterRep l c) else none) i
        = (some ∘ fun i => detGetD l i) i := by
    intro i hi
    rw [List.mem_range] at hi
    simp only [hcomp i hi]
    rw [if_pos (by simp)]
    rw [clusterRep_singleton l i (hq _ (detGetD_mem l i hi))]
    rfl
  simp only [clusterDetections]
  rw [List.filterMap_congr hfun, List.filterMap_eq_map, map_detGetD_range]

/-- Eight raw detections forming two separated components (no cross pair
overlaps at all) whose score-weighted representatives nevertheless overlap
each other. -/
def clusterCexDets : List Detection :=
  [⟨4, 4, 10, 1⟩, ⟨-10, 4, 10, 1⟩, ⟨-10, 13, 10, 1⟩, ⟨-6, 14, 10, 1⟩,
   ⟨3, 14, 10, 1⟩, ⟨12, 14, 10, 1⟩, ⟨18, 9, 10, 1⟩, ⟨18, 4, 10, 1⟩]

/-- C7 counterexample: clustering as specified is not idempotent.  On the
list above with threshold `1/250` the first pass yields the two
representatives `(4, 4, 10)` (the singleton's member, score 1) and
`(3, 10, 10)` (the seven-member chain's weighted mean, score 7); these two
overlap with IoU above the threshold, so a second pass merges them into a
single detection and the output changes. -/
theorem cluster_not_idempotent :
    clusterDetections (clusterDetections clusterCexDets (1 / 250)) (1 / 250)
      ≠ clusterDetections clusterCexDets (1 / 250) := by
  with_unfolding_all decide

/-- C7 (amended): clustering is idempotent on every input whose first-pass
representatives all carry a positive score and are pairwise at IoU at most
the clamped threshold; without that separation property a second pass can
merge representatives further (see the counterexample). -/
theorem cluster_idempotent_of_separated (l : List Detection) (t : ℚ)
    (hq : ∀ d ∈ clusterDetections l t, 0 < d.q)
    (h : ∀ i, i < (clusterDetections l t).length →
         ∀ j, j < (clusterDetections l t).length → i ≠ j →
          iou (detGetD (clusterDetections l t) i)
              (detGetD (clusterDetections l t) j) ≤ max 0 (min 1 t)) :
    clusterDetections (clusterDetections l t) t = clusterDetections l t :=
  cluster_sep_identity (clusterDetections l t) t hq h

/-- Two detections far apart: each is its own cluster. -/
def clusterWitDets : List Detection := [⟨0, 0, 10, 1⟩, ⟨100, 100, 10, 1⟩]

/-- Witness for C7 (amended): on two separated detections a second
clustering pass changes nothing. -/
theorem cluster_idempotent_of_separated_witness :
    clusterDetections (clusterDetections clusterWitDets 0) 0
      = clusterDetections clusterWitDets 0 :=
  cluster_idempotent_of_separated clusterWitDets 0
    (by with_unfolding_all decide) (by with_unfolding_all decide)
